import Mathlib

/-!
Verification of the student-performance computation core.

The embedding models the numeric pipeline in exact arithmetic: raw
scores are rationals or a distinguished not-a-number marker, the
normalized vector is a list of rationals, and the real-valued metrics
(standard deviation, entropy, skewness, consistency, coefficient of
variation) live in `ℝ`.  Fallible operations return `Except String`.
Reports are association lists from metric name to real value, in the
insertion order of the source's dictionaries.

Namespace `SEngine` embeds `src/core/s_engine.py` (raw-input variant),
namespace `StudentEngine` embeds `src/core/student_perf/student_engine.py`
(pre-normalized-input variant), and namespace `MainPy` embeds the
differing parts of `src/main.py`.
-/

/-- A raw score value: either an ordinary (rational) number or the
not-a-number marker.  The source detects NaN through the IEEE
self-inequality trick (`x != x`); the embedding makes the marker explicit. -/
inductive RawVal where
  | nan : RawVal
  | num : ℚ → RawVal
deriving DecidableEq

namespace SEngine

/-- Embeds `StudentPerformanceComputeEngine._normalizeScore`
(`s_engine.py`, lines 57-68).  The source first returns `0.0` when the
obtained score is NaN, then normalizes when the maximum is a nonzero
number and the obtained score does not exceed it, and raises `ValueError`
otherwise. -/
def normalizeScore (maxScore obtainedScore : RawVal) : Except String ℚ :=
  match obtainedScore with
  | .nan => .ok 0
  | .num o =>
    match maxScore with
    | .nan => .error "Obtained score <= Maximum score (!= 0)"
    | .num m =>
      if m ≠ 0 ∧ o ≤ m then .ok (o / m * 10)
      else .error "Obtained score <= Maximum score (!= 0)"

/-- Embeds `StudentPerformanceComputeEngine._normalizeAllScores`
(`s_engine.py`, lines 70-76): the pairs are `(testScore, maxScore)` as
produced by `zip(self.testScores, self.maxScores)`; the loop body calls
`_normalizeScore(maxScore, score)` and a raised error aborts the loop,
so no partial vector is ever returned. -/
def normalizeAllScores : List (RawVal × RawVal) → Except String (List ℚ)
  | [] => .ok []
  | (score, maxScore) :: rest => do
    let q ← normalizeScore maxScore score
    let qs ← normalizeAllScores rest
    pure (q :: qs)

/-- Embeds `_calculateMean` (`np.mean`: sum divided by length; the
source only evaluates it on nonempty vectors, where the denominator is
nonzero). -/
def mean (v : List ℚ) : ℚ :=
  v.sum / v.length

/-- Embeds `ConsistencyComputeEngine._calculateVariance`
(`np.var(..., ddof=0)`: the population variance, mean of squared
deviations from the mean). -/
def variance (v : List ℚ) : ℚ :=
  (v.map (fun x => (x - mean v) ^ 2)).sum / v.length

/-- Embeds `_calculateStandardDeviation` (`np.std`: square root of the
population variance). -/
noncomputable def std (v : List ℚ) : ℝ :=
  Real.sqrt ((variance v : ℝ))

/-- Embeds `ConsistencyComputeEngine._calculateMeanAbsoluteDeviation`:
mean of the absolute deviations from the mean. -/
def mad (v : List ℚ) : ℚ :=
  (v.map (fun x => |x - mean v|)).sum / v.length

/-- The constant `self.ALPHA` of `ConsistencyComputeEngine`. -/
def ALPHA : ℝ := 0.3

/-- The constant `self.BETA` of `ConsistencyComputeEngine`. -/
def BETA : ℝ := 0.7

/-- Embeds the consistency formula of
`ConsistencyComputeEngine.returnConsistencyScores` (`s_engine.py`,
lines 111-120): `1 / (1 + ALPHA*variance + BETA*std)`. -/
noncomputable def consistency (v : List ℚ) : ℝ :=
  1 / (1 + ALPHA * (variance v : ℝ) + BETA * std v)

/-- Embeds the dictionary returned by
`ConsistencyComputeEngine.returnConsistencyScores`, in insertion order. -/
noncomputable def returnConsistencyScores (v : List ℚ) : List (String × ℝ) :=
  [("consistency", consistency v), ("mad", (mad v : ℝ))]

/-- Embeds `np.max` on the normalized vector (the source raises on an
empty vector, which it never reaches because construction computes the
maximum right after normalization; the `[]` branch is junk). -/
def npMax (v : List ℚ) : ℚ :=
  match v with
  | [] => 0
  | x :: xs => xs.foldl max x

/-- Embeds `np.min` on the normalized vector (same remarks as `npMax`). -/
def npMin (v : List ℚ) : ℚ :=
  match v with
  | [] => 0
  | x :: xs => xs.foldl min x

/-- The k-th central moment of the vector, the building block
`scipy.stats.skew` computes as `moment(a, k)`: mean of the k-th powers
of the deviations from the mean. -/
def centralMoment (v : List ℚ) (k : ℕ) : ℚ :=
  (v.map (fun x => (x - mean v) ^ k)).sum / v.length

/-- Embeds `StatisticsComputeEngine._checkSkewness` (`scipy.stats.skew`
with its default `bias=True`): `m3 / m2 ** 1.5`, the population third
standardized moment.  `m2 ** 1.5` is `sqrt(m2) ^ 3`. -/
noncomputable def skewness (v : List ℚ) : ℝ :=
  (centralMoment v 3 : ℝ) / Real.sqrt ((centralMoment v 2 : ℝ)) ^ 3

/-- Embeds `np.percentile` with its default linear interpolation: with
the data sorted ascending and `h = (n-1) * q / 100`, the result
interpolates between the order statistics at `⌊h⌋` and `⌊h⌋ + 1`. -/
def percentile (v : List ℚ) (q : ℚ) : ℚ :=
  let sorted := List.insertionSort (· ≤ ·) v
  let n := sorted.length
  let h : ℚ := (n - 1 : ℚ) * q / 100
  let i : ℕ := (⌊h⌋).toNat
  let lo := sorted.getD i 0
  let hi := sorted.getD (i + 1) lo
  lo + (h - i) * (hi - lo)

/-- Embeds the dictionary returned by
`StatisticsComputeEngine.returnStatistics` (`s_engine.py`, lines
145-155): the core statistics merged with the percentile dictionary of
`_calculatePercentiles`, in insertion order. -/
noncomputable def returnStatistics (v : List ℚ) : List (String × ℝ) :=
  [("mean", (mean v : ℝ)), ("skewness", skewness v),
   ("min", (npMin v : ℝ)), ("max", (npMax v : ℝ))]
    ++ [("q1", (percentile v 25 : ℝ)), ("median", (percentile v 50 : ℝ)),
        ("q3", (percentile v 75 : ℝ))]

/-- The strictly positive entries of the vector, in order: embeds the
boolean-mask indexing `sampleData[sampleData > 0]`. -/
def posFilter (v : List ℚ) : List ℚ :=
  v.filter (fun x => decide (0 < x))

/-- Embeds `DistributionComputeEngine._calculateShannonEntropy`
(`s_engine.py`, lines 170-178): filter to strictly positive values,
divide each by the filtered sum, and return `-Σ p_i * log2(p_i)`.
On an empty filtered list both sums are empty and the result is `0`. -/
noncomputable def shannonEntropy (v : List ℚ) : ℝ :=
  let filteredData := posFilter v
  let probabilities := filteredData.map (fun x => x / filteredData.sum)
  Neg.neg ((probabilities.map (fun p : ℚ => (p : ℝ) * Real.logb 2 (p : ℝ))).sum)

/-- Embeds `DistributionComputeEngine._calculateRange`: maximum minus
minimum of the normalized vector. -/
def scoreRange (v : List ℚ) : ℚ :=
  npMax v - npMin v

/-- Embeds `DistributionComputeEngine._calculateCoefficientOfVariation`
(`s_engine.py`, lines 184-186): the bare quotient `std / mean`, with no
guard for `mean == 0`. -/
noncomputable def cv (v : List ℚ) : ℝ :=
  std v / (mean v : ℝ)

/-- Embeds the dictionary returned by
`DistributionComputeEngine.returnDistributionScores`, in insertion
order. -/
noncomputable def returnDistributionScores (v : List ℚ) : List (String × ℝ) :=
  [("entropy", shannonEntropy v), ("range", (scoreRange v : ℝ)),
   ("cv", cv v), ("std", std v)]

/-- The merge `consistencyScores | statistics | distributionScores` of
`ComputeStudentPerformance.compute` (`s_engine.py`, lines 213-220) as a
function of one normalized vector; with pairwise distinct keys the
Python dictionary union is concatenation in insertion order. -/
noncomputable def computeOnVector (v : List ℚ) : List (String × ℝ) :=
  returnConsistencyScores v ++ returnStatistics v ++ returnDistributionScores v

/-- Embeds `ComputeStudentPerformance.__init__` plus `compute`
(`s_engine.py`, lines 200-220) on raw pairs: each of the three engine
constructors calls `_normalizeAllScores` on the same raw inputs through
the base-class `__init__`, so the input is normalized three times, and
a normalization error in the first constructor aborts the whole
aggregation. -/
noncomputable def computeFromRaw (pairs : List (RawVal × RawVal)) :
    Except String (List (String × ℝ)) := do
  let v1 ← normalizeAllScores pairs
  let v2 ← normalizeAllScores pairs
  let v3 ← normalizeAllScores pairs
  pure (returnConsistencyScores v1 ++ returnStatistics v2
    ++ returnDistributionScores v3)

/-- The same constructor sequence as `computeFromRaw`, instrumented with
the number of `_normalizeAllScores` invocations actually performed:
one per engine constructor that runs (`ConsistencyComputeEngine`,
`StatisticsComputeEngine`, `DistributionComputeEngine`, in the order of
`ComputeStudentPerformance.__init__`). -/
noncomputable def computeFromRawCounted (pairs : List (RawVal × RawVal)) :
    Except String (List (String × ℝ)) × ℕ :=
  match normalizeAllScores pairs with
  | .error e => (.error e, 1)
  | .ok v1 =>
    match normalizeAllScores pairs with
    | .error e => (.error e, 2)
    | .ok v2 =>
      match normalizeAllScores pairs with
      | .error e => (.error e, 3)
      | .ok v3 =>
        (.ok (returnConsistencyScores v1 ++ returnStatistics v2
          ++ returnDistributionScores v3), 3)

end SEngine

/-- Mirrors the specification's per-pair rules, stated in the spec's own
order (section 4.1): rule 1, NaN obtained maps to `0.0`; rule 2,
`maximum == 0`, NaN maximum, or `obtained > maximum` fails with
`ValidationError`; rule 3, otherwise `(obtained / maximum) * 10.0`.
Used only to compare with `SEngine.normalizeScore`. -/
def normalizeScoreSpec (maxScore obtainedScore : RawVal) : Except String ℚ :=
  match obtainedScore, maxScore with
  | .nan, _ => .ok 0
  | .num _, .nan => .error "ValidationError"
  | .num o, .num m =>
    if m = 0 then .error "ValidationError"
    else if o > m then .error "ValidationError"
    else .ok (o / m * 10)

namespace StudentEngine

/-- Embeds `_calculateMean` of `student_engine.py` (same body as the
`s_engine.py` copy). -/
def mean (v : List ℚ) : ℚ :=
  v.sum / v.length

/-- Embeds `ConsistencyComputeEngine._calculateVariance` of
`student_engine.py`. -/
def variance (v : List ℚ) : ℚ :=
  (v.map (fun x => (x - mean v) ^ 2)).sum / v.length

/-- Embeds `_calculateStandardDeviation` of `student_engine.py`. -/
noncomputable def std (v : List ℚ) : ℝ :=
  Real.sqrt ((variance v : ℝ))

/-- Embeds `_calculateMeanAbsoluteDeviation` of `student_engine.py`. -/
def mad (v : List ℚ) : ℚ :=
  (v.map (fun x => |x - mean v|)).sum / v.length

/-- Embeds the consistency formula of `student_engine.py`, lines 83-92,
with its constants `ALPHA = 0.3`, `BETA = 0.7`. -/
noncomputable def consistency (v : List ℚ) : ℝ :=
  1 / (1 + 0.3 * (variance v : ℝ) + 0.7 * std v)

/-- Embeds `ConsistencyComputeEngine.returnConsistencyScores` of
`student_engine.py`. -/
noncomputable def returnConsistencyScores (v : List ℚ) : List (String × ℝ) :=
  [("consistency", consistency v), ("mad", (mad v : ℝ))]

/-- Embeds `np.max` as used in `student_engine.py`. -/
def npMax (v : List ℚ) : ℚ :=
  match v with
  | [] => 0
  | x :: xs => xs.foldl max x

/-- Embeds `np.min` as used in `student_engine.py`. -/
def npMin (v : List ℚ) : ℚ :=
  match v with
  | [] => 0
  | x :: xs => xs.foldl min x

/-- The k-th central moment, as inside `scipy.stats.skew`. -/
def centralMoment (v : List ℚ) (k : ℕ) : ℚ :=
  (v.map (fun x => (x - mean v) ^ k)).sum / v.length

/-- Embeds `StatisticsComputeEngine._checkSkewness` of
`student_engine.py`. -/
noncomputable def skewness (v : List ℚ) : ℝ :=
  (centralMoment v 3 : ℝ) / Real.sqrt ((centralMoment v 2 : ℝ)) ^ 3

/-- Embeds `np.percentile` as used in `student_engine.py`. -/
def percentile (v : List ℚ) (q : ℚ) : ℚ :=
  let sorted := List.insertionSort (· ≤ ·) v
  let n := sorted.length
  let h : ℚ := (n - 1 : ℚ) * q / 100
  let i : ℕ := (⌊h⌋).toNat
  let lo := sorted.getD i 0
  let hi := sorted.getD (i + 1) lo
  lo + (h - i) * (hi - lo)

/-- Embeds `StatisticsComputeEngine.returnStatistics` of
`student_engine.py`, lines 117-127. -/
noncomputable def returnStatistics (v : List ℚ) : List (String × ℝ) :=
  [("mean", (mean v : ℝ)), ("skewness", skewness v),
   ("min", (npMin v : ℝ)), ("max", (npMax v : ℝ))]
    ++ [("q1", (percentile v 25 : ℝ)), ("median", (percentile v 50 : ℝ)),
        ("q3", (percentile v 75 : ℝ))]

/-- The strictly positive entries, as in
`DistributionComputeEngine._calculateShannonEntropy` of
`student_engine.py`. -/
def posFilter (v : List ℚ) : List ℚ :=
  v.filter (fun x => decide (0 < x))

/-- Embeds `DistributionComputeEngine._calculateShannonEntropy` of
`student_engine.py`, lines 142-150 (same body as the `s_engine.py`
copy, with the division by the filtered sum). -/
noncomputable def shannonEntropy (v : List ℚ) : ℝ :=
  let filteredData := posFilter v
  let probabilities := filteredData.map (fun x => x / filteredData.sum)
  Neg.neg ((probabilities.map (fun p : ℚ => (p : ℝ) * Real.logb 2 (p : ℝ))).sum)

/-- Embeds `DistributionComputeEngine._calculateRange` of
`student_engine.py`. -/
def scoreRange (v : List ℚ) : ℚ :=
  npMax v - npMin v

/-- Embeds `DistributionComputeEngine._calculateCoefficientOfVariation`
of `student_engine.py`. -/
noncomputable def cv (v : List ℚ) : ℝ :=
  std v / (mean v : ℝ)

/-- Embeds `DistributionComputeEngine.returnDistributionScores` of
`student_engine.py`. -/
noncomputable def returnDistributionScores (v : List ℚ) : List (String × ℝ) :=
  [("entropy", shannonEntropy v), ("range", (scoreRange v : ℝ)),
   ("cv", cv v), ("std", std v)]

/-- Embeds `ComputeStudentPerformance.compute` of `student_engine.py`,
lines 172-191: the wrapper receives an already-normalized vector,
shares it among the three engines, and merges their dictionaries. -/
noncomputable def compute (v : List ℚ) : List (String × ℝ) :=
  returnConsistencyScores v ++ returnStatistics v ++ returnDistributionScores v

end StudentEngine

namespace MainPy

/-- Embeds `StudentPerformanceAnalyzer._normalizeScore` (`main.py`,
lines 17-28); the body is textually identical to the `s_engine.py`
variant. -/
def normalizeScore (maxScore obtainedScore : RawVal) : Except String ℚ :=
  match obtainedScore with
  | .nan => .ok 0
  | .num o =>
    match maxScore with
    | .nan => .error "Obtained score <= Maximum score (!= 0)"
    | .num m =>
      if m ≠ 0 ∧ o ≤ m then .ok (o / m * 10)
      else .error "Obtained score <= Maximum score (!= 0)"

/-- Embeds `DistributionAnalyzer._calculateShannonEntropy` (`main.py`,
lines 107-113): this variant takes the positive entries themselves as
the "probabilities" — it never divides by their sum — and returns
`-Σ x * log2(x)` over the positive entries. -/
noncomputable def shannonEntropy (v : List ℚ) : ℝ :=
  let probabilities := v.filter (fun x => decide (0 < x))
  Neg.neg ((probabilities.map (fun p : ℚ => (p : ℝ) * Real.logb 2 (p : ℝ))).sum)

end MainPy

/-- Sum of a list of nonpositive reals is nonpositive. -/
theorem list_sum_nonpos {l : List ℝ} (h : ∀ x ∈ l, x ≤ 0) : l.sum ≤ 0 := by
  induction l with
  | nil => simp
  | cons a t ih =>
    have ha := h a (by simp)
    have ht := ih (fun x hx => h x (by simp [hx]))
    simp only [List.sum_cons]
    linarith

/-- Sum of a list of nonpositive reals is zero exactly when every entry
is zero. -/
theorem list_sum_nonpos_eq_zero {l : List ℝ} (h : ∀ x ∈ l, x ≤ 0) :
    l.sum = 0 ↔ ∀ x ∈ l, x = 0 := by
  induction l with
  | nil => simp
  | cons a t ih =>
    have ha := h a (by simp)
    have ht : ∀ x ∈ t, x ≤ 0 := fun x hx => h x (by simp [hx])
    have htsum := list_sum_nonpos ht
    simp only [List.sum_cons]
    constructor
    · intro hsum
      have ha0 : a = 0 := by linarith
      have ht0 : t.sum = 0 := by linarith
      intro x hx
      rcases List.mem_cons.mp hx with rfl | hx'
      · exact ha0
      · exact (ih ht).mp ht0 x hx'
    · intro hall
      have ha0 : a = 0 := hall a (by simp)
      have ht0 : t.sum = 0 := (ih ht).mpr fun x hx => hall x (by simp [hx])
      simp [ha0, ht0]

/-- C3: the per-pair normalization rules, applied in the spec's order,
agree with the source's `_normalizeScore` on every pair: same success
values and failure on exactly the same pairs (NaN obtained gives `0.0`
without error; zero maximum, NaN maximum, or obtained above maximum
fails; otherwise the value is `(obtained / maximum) * 10`).  The
`main.py` copy of the normalizer is the same function. -/
theorem normalizeScore_matches_spec (maxScore obtainedScore : RawVal) :
    (SEngine.normalizeScore maxScore obtainedScore).toOption
      = (normalizeScoreSpec maxScore obtainedScore).toOption
    ∧ ((SEngine.normalizeScore maxScore obtainedScore).isOk
      = (normalizeScoreSpec maxScore obtainedScore).isOk)
    ∧ MainPy.normalizeScore maxScore obtainedScore
      = SEngine.normalizeScore maxScore obtainedScore := by
  refine ⟨?_, ?_, rfl⟩ <;>
  · rcases obtainedScore with _ | o
    · rfl
    · rcases maxScore with _ | m
      · rfl
      · simp only [SEngine.normalizeScore, normalizeScoreSpec]
        by_cases hm : m = 0
        · subst hm
          rw [if_neg (by simp), if_pos rfl]
          rfl
        · by_cases ho : o ≤ m
          · rw [if_pos ⟨hm, ho⟩, if_neg hm, if_neg (not_lt.mpr ho)]
          · rw [if_neg (by tauto), if_neg hm, if_pos (lt_of_not_le ho)]
            rfl

/-- C4 (counterexample): the pair `obtained = -5`, `maximum = 10` passes
validation (it is neither NaN, nor zero maximum, nor above the maximum),
yet its normalized value `-5` lies outside `[0, 10]`. -/
theorem normalized_value_negative_counterexample :
    SEngine.normalizeScore (.num 10) (.num (-5)) = .ok (-5)
    ∧ ¬ ((0 : ℚ) ≤ -5) := by
  constructor
  · norm_num [SEngine.normalizeScore]
  · norm_num

/-- C4 (amended): every pair that passes validation and whose obtained
score is nonnegative (when it is a number at all) normalizes into the
closed interval `[0, 10]`; a NaN obtained score normalizes to `0`,
which also lies in the interval. -/
theorem normalized_value_in_range (maxScore obtainedScore : RawVal) (q : ℚ)
    (hnonneg : ∀ o, obtainedScore = .num o → 0 ≤ o)
    (hok : SEngine.normalizeScore maxScore obtainedScore = .ok q) :
    0 ≤ q ∧ q ≤ 10 := by
  rcases obtainedScore with _ | o
  · simp [SEngine.normalizeScore] at hok
    simp [← hok]
  · have ho : 0 ≤ o := hnonneg o rfl
    rcases maxScore with _ | m
    · simp [SEngine.normalizeScore] at hok
    · simp only [SEngine.normalizeScore] at hok
      split at hok
      · rename_i hcond
        obtain ⟨hm, hom⟩ := hcond
        have hmpos : 0 < m := lt_of_le_of_ne (le_trans ho hom) (Ne.symm hm)
        have hq : q = o / m * 10 := by
          simpa using hok.symm
        subst hq
        constructor
        · positivity
        · have hdiv : o / m ≤ 1 := (div_le_one hmpos).mpr hom
          have : o / m * 10 ≤ 1 * 10 := by
            have h10 : (0 : ℚ) ≤ 10 := by norm_num
            exact mul_le_mul_of_nonneg_right hdiv h10
          linarith
      · exact absurd hok (by simp)

/-- C4 (witness): the concrete pair `obtained = 7`, `maximum = 10`
normalizes to `7`, which the amended claim places in `[0, 10]`. -/
theorem normalized_value_in_range_witness : (0 : ℚ) ≤ 7 ∧ (7 : ℚ) ≤ 10 :=
  normalized_value_in_range (.num 10) (.num 7) 7
    (fun o h => by cases h; norm_num) (by norm_num [SEngine.normalizeScore])

/-- Population variance of any vector is nonnegative. -/
theorem variance_nonneg (v : List ℚ) : 0 ≤ SEngine.variance v := by
  unfold SEngine.variance
  apply div_nonneg
  · apply List.sum_nonneg
    intro x hx
    obtain ⟨y, _, rfl⟩ := List.mem_map.mp hx
    positivity
  · exact_mod_cast Nat.zero_le v.length

/-- C7: the reported consistency is `1 / (1 + 0.3*variance + 0.7*std)`
with population variance and standard deviation; it lies in `(0, 1]`
and equals `1` exactly when both the variance and the standard
deviation vanish. -/
theorem consistency_range_and_one_iff (v : List ℚ) :
    (0 < SEngine.consistency v ∧ SEngine.consistency v ≤ 1)
    ∧ (SEngine.consistency v = 1
        ↔ SEngine.variance v = 0 ∧ SEngine.std v = 0) := by
  have hvar : 0 ≤ SEngine.variance v := variance_nonneg v
  have hvarR : (0 : ℝ) ≤ (SEngine.variance v : ℝ) := by exact_mod_cast hvar
  have hstd : 0 ≤ SEngine.std v := Real.sqrt_nonneg _
  have hA : SEngine.ALPHA = 0.3 := rfl
  have hB : SEngine.BETA = 0.7 := rfl
  have hden : (1 : ℝ)
      ≤ 1 + SEngine.ALPHA * (SEngine.variance v : ℝ) + SEngine.BETA * SEngine.std v := by
    rw [hA, hB]
    nlinarith
  have hdenpos : (0 : ℝ)
      < 1 + SEngine.ALPHA * (SEngine.variance v : ℝ) + SEngine.BETA * SEngine.std v := by
    linarith
  refine ⟨⟨?_, ?_⟩, ?_⟩
  · exact div_pos one_pos hdenpos
  · unfold SEngine.consistency
    rw [div_le_one hdenpos]
    exact hden
  · unfold SEngine.consistency
    constructor
    · intro h1
      have hd1 : (1 : ℝ)
          = 1 + SEngine.ALPHA * (SEngine.variance v : ℝ) + SEngine.BETA * SEngine.std v :=
        (div_eq_one_iff_eq (ne_of_gt hdenpos)).mp h1
      rw [hA, hB] at hd1
      have hzero : 0.3 * (SEngine.variance v : ℝ) + 0.7 * SEngine.std v = 0 := by
        linarith
      have hv0 : (SEngine.variance v : ℝ) = 0 := by nlinarith
      have hs0 : SEngine.std v = 0 := by nlinarith
      exact ⟨by exact_mod_cast hv0, hs0⟩
    · rintro ⟨hv0, hs0⟩
      rw [hv0, hs0]
      norm_num

/-- C2 (counterexample): on the concrete vector `[7]` the merged report
carries thirteen keys, not the nine the claim announces. -/
theorem merged_report_key_count_counterexample :
    ((SEngine.computeOnVector [7]).map Prod.fst).length = 13
    ∧ (13 : ℕ) ≠ 9 := by
  exact ⟨rfl, by decide⟩

/-- C2 (amended): for every normalized vector the merged report maps
exactly the thirteen listed metric keys; the key lists of the three
engines are pairwise disjoint; the merged key list is their
concatenation and has no duplicates.  The source performs no
disjointness assertion — the merge is a plain dictionary union — so
disjointness is verified here as a fact about the code, not as a
runtime check the code makes. -/
theorem merged_report_keys (v : List ℚ) :
    (SEngine.computeOnVector v).map Prod.fst
      = ["consistency", "mad", "mean", "skewness", "min", "max", "q1",
         "median", "q3", "entropy", "range", "cv", "std"]
    ∧ ((SEngine.computeOnVector v).map Prod.fst).Nodup
    ∧ ((SEngine.returnConsistencyScores v).map Prod.fst).Disjoint
        ((SEngine.returnStatistics v).map Prod.fst)
    ∧ ((SEngine.returnConsistencyScores v).map Prod.fst).Disjoint
        ((SEngine.returnDistributionScores v).map Prod.fst)
    ∧ ((SEngine.returnStatistics v).map Prod.fst).Disjoint
        ((SEngine.returnDistributionScores v).map Prod.fst)
    ∧ (SEngine.computeOnVector v).map Prod.fst
      = (SEngine.returnConsistencyScores v).map Prod.fst
        ++ (SEngine.returnStatistics v).map Prod.fst
        ++ (SEngine.returnDistributionScores v).map Prod.fst := by
  have hc : (SEngine.returnConsistencyScores v).map Prod.fst
      = ["consistency", "mad"] := rfl
  have hs : (SEngine.returnStatistics v).map Prod.fst
      = ["mean", "skewness", "min", "max", "q1", "median", "q3"] := rfl
  have hd : (SEngine.returnDistributionScores v).map Prod.fst
      = ["entropy", "range", "cv", "std"] := rfl
  have hk : (SEngine.computeOnVector v).map Prod.fst
      = ["consistency", "mad", "mean", "skewness", "min", "max", "q1",
         "median", "q3", "entropy", "range", "cv", "std"] := rfl
  refine ⟨hk, ?_, ?_, ?_, ?_, ?_⟩
  · rw [hk]
    decide
  · rw [hc, hs]
    simp [List.Disjoint]
  · rw [hc, hd]
    simp [List.Disjoint]
  · rw [hs, hd]
    simp [List.Disjoint]
  · rw [hk, hc, hs, hd]
    rfl

/-- C8 (counterexample): on the concrete valid input
`scores=[7], max=[10]` the wrapper's constructor sequence performs
three `_normalizeAllScores` invocations — one in each sub-engine
constructor — not the single one the claim announces. -/
theorem aggregator_normalization_count_counterexample :
    (SEngine.computeFromRawCounted [(RawVal.num 7, RawVal.num 10)]).2 = 3
    ∧ (3 : ℕ) ≠ 1 := by
  constructor
  · norm_num [SEngine.computeFromRawCounted, SEngine.normalizeAllScores,
      SEngine.normalizeScore]
    rfl
  · decide

/-- C8 (amended): the raw-input wrapper normalizes the raw pairs once
per engine constructor (three times per request); because normalization
is a pure function of the input, every run is equivalent to normalizing
once and sharing the single vector among the three engines, which is
what `computeOnVector` does.  The instrumented variant computes the
same result as the plain embedding. -/
theorem aggregator_single_normalization_equiv (pairs : List (RawVal × RawVal)) :
    SEngine.computeFromRaw pairs
      = (SEngine.normalizeAllScores pairs).map SEngine.computeOnVector
    ∧ (SEngine.computeFromRawCounted pairs).1 = SEngine.computeFromRaw pairs := by
  rcases h : SEngine.normalizeAllScores pairs with e | v
  · constructor
    · unfold SEngine.computeFromRaw
      rw [h]
      rfl
    · unfold SEngine.computeFromRawCounted SEngine.computeFromRaw
      rw [h]
      rfl
  · constructor
    · unfold SEngine.computeFromRaw SEngine.computeOnVector
      rw [h]
      rfl
    · unfold SEngine.computeFromRawCounted SEngine.computeFromRaw
      rw [h]
      rfl

/-- C6 (code evaluation at the failing input): the raw pairs
`scores=[5,-5], max=[10,10]` pass validation and normalize to
`[5, -5]`, whose mean is `0` while its standard deviation is not `0`;
`_calculateCoefficientOfVariation` is the bare quotient `std / mean`,
so on this reachable input the source divides a nonzero floating-point
number by zero instead of returning a sentinel. -/
theorem cv_degenerate_reachable :
    SEngine.normalizeAllScores
        [(RawVal.num 5, RawVal.num 10), (RawVal.num (-5), RawVal.num 10)]
      = .ok [5, -5]
    ∧ SEngine.mean [5, -5] = 0
    ∧ SEngine.std [5, -5] ≠ 0
    ∧ SEngine.cv [5, -5] = SEngine.std [5, -5] / ((SEngine.mean [5, -5] : ℝ)) := by
  refine ⟨?_, ?_, ?_, rfl⟩
  · norm_num [SEngine.normalizeAllScores, SEngine.normalizeScore]
    rfl
  · norm_num [SEngine.mean]
  · have hv : SEngine.variance [5, -5] = 25 := by
      norm_num [SEngine.variance, SEngine.mean]
    unfold SEngine.std
    rw [hv]
    rw [show ((25 : ℚ) : ℝ) = 25 by norm_num]
    rw [show (25 : ℝ) = 5 ^ 2 by norm_num]
    rw [Real.sqrt_sq (by norm_num : (0:ℝ) ≤ 5)]
    norm_num

/-- C9: when the input contains an invalid pair, normalization fails
with the error of the first invalid pair in input order — every pair
before it normalizes — no partial vector is produced (the result is the
error, not a list), and the whole aggregation for that student returns
the same error and no report. -/
theorem normalize_fail_fast (pre post : List (RawVal × RawVal))
    (p : RawVal × RawVal) (e : String)
    (hpre : ∀ q ∈ pre, ∃ x, SEngine.normalizeScore q.2 q.1 = .ok x)
    (hp : SEngine.normalizeScore p.2 p.1 = .error e) :
    SEngine.normalizeAllScores (pre ++ p :: post) = .error e
    ∧ SEngine.computeFromRaw (pre ++ p :: post) = .error e := by
  have hnorm : ∀ pre' : List (RawVal × RawVal),
      (∀ q ∈ pre', ∃ x, SEngine.normalizeScore q.2 q.1 = .ok x) →
      SEngine.normalizeAllScores (pre' ++ p :: post) = .error e := by
    intro pre'
    induction pre' with
    | nil =>
      intro _
      obtain ⟨ps, pm⟩ := p
      simp only at hp
      simp only [List.nil_append, SEngine.normalizeAllScores, hp]
      rfl
    | cons q rest ih =>
      intro hpre'
      obtain ⟨qs, qm⟩ := q
      obtain ⟨x, hx⟩ := hpre' (qs, qm) (List.mem_cons_self _ _)
      simp only at hx
      have ih' := ih fun r hr => hpre' r (List.mem_cons_of_mem _ hr)
      simp only [List.cons_append, SEngine.normalizeAllScores, hx,
        Bind.bind, Except.bind]
      rw [List.append_eq, ih']
  have h1 := hnorm pre hpre
  refine ⟨h1, ?_⟩
  unfold SEngine.computeFromRaw
  rw [h1]
  rfl

/-- C9 (witness): with a valid first pair `(5, 10)` and an invalid
second pair `(11, 10)` the whole normalization and the whole
aggregation return the `ValueError` message of the invalid pair. -/
theorem normalize_fail_fast_witness :
    SEngine.normalizeAllScores
        [(RawVal.num 5, RawVal.num 10), (RawVal.num 11, RawVal.num 10)]
      = .error "Obtained score <= Maximum score (!= 0)"
    ∧ SEngine.computeFromRaw
        [(RawVal.num 5, RawVal.num 10), (RawVal.num 11, RawVal.num 10)]
      = .error "Obtained score <= Maximum score (!= 0)" :=
  normalize_fail_fast [(RawVal.num 5, RawVal.num 10)] []
    (RawVal.num 11, RawVal.num 10) "Obtained score <= Maximum score (!= 0)"
    (by
      intro q hq
      simp only [List.mem_singleton] at hq
      subst hq
      exact ⟨5, by norm_num [SEngine.normalizeScore]⟩)
    (by norm_num [SEngine.normalizeScore])

/-- Unfolded form of the s-engine entropy: one map, with the division
by the filtered sum inlined. -/
theorem shannonEntropy_eq (v : List ℚ) :
    SEngine.shannonEntropy v
      = -(((SEngine.posFilter v).map (fun x =>
          ((x / (SEngine.posFilter v).sum : ℚ) : ℝ)
            * Real.logb 2 ((x / (SEngine.posFilter v).sum : ℚ) : ℝ))).sum) := by
  unfold SEngine.shannonEntropy
  dsimp only
  rw [List.map_map]
  rfl

/-- Entries of the positive filter are strictly positive. -/
theorem posFilter_pos (v : List ℚ) : ∀ x ∈ SEngine.posFilter v, 0 < x := by
  intro x hx
  unfold SEngine.posFilter at hx
  rw [List.mem_filter] at hx
  exact of_decide_eq_true hx.2

/-- Core entropy computation over a list of strictly positive rationals:
the value `-Σ (x/S) * log2 (x/S)` (with `S` the sum) is nonnegative, and
vanishes exactly when the list is empty or a singleton. -/
theorem entropy_core (l : List ℚ) (hpos : ∀ x ∈ l, 0 < x) :
    (0 : ℝ) ≤ -((l.map (fun x =>
        ((x / l.sum : ℚ) : ℝ) * Real.logb 2 ((x / l.sum : ℚ) : ℝ))).sum)
    ∧ (-((l.map (fun x =>
        ((x / l.sum : ℚ) : ℝ) * Real.logb 2 ((x / l.sum : ℚ) : ℝ))).sum) = 0
      ↔ l = [] ∨ l.length = 1) := by
  rcases eq_or_ne l [] with rfl | hne
  · simp
  · have hS : 0 < l.sum := List.sum_pos l hpos hne
    have hle : ∀ x ∈ l, x ≤ l.sum :=
      fun x hx => List.single_le_sum (fun y hy => le_of_lt (hpos y hy)) x hx
    have hterm : ∀ t ∈ l.map (fun x =>
        ((x / l.sum : ℚ) : ℝ) * Real.logb 2 ((x / l.sum : ℚ) : ℝ)), t ≤ 0 := by
      intro t ht
      obtain ⟨x, hx, rfl⟩ := List.mem_map.mp ht
      have hp0 : (0 : ℚ) < x / l.sum := div_pos (hpos x hx) hS
      have hp1 : x / l.sum ≤ 1 := (div_le_one hS).mpr (hle x hx)
      have hc0 : (0 : ℝ) ≤ ((x / l.sum : ℚ) : ℝ) := by exact_mod_cast le_of_lt hp0
      have hc1 : ((x / l.sum : ℚ) : ℝ) ≤ 1 := by exact_mod_cast hp1
      have hlog := Real.logb_nonpos one_lt_two hc0 hc1
      nlinarith
    have hsum := list_sum_nonpos hterm
    refine ⟨by linarith, ?_⟩
    rw [neg_eq_zero, list_sum_nonpos_eq_zero hterm]
    constructor
    · intro hall
      right
      have hxS : ∀ x ∈ l, x = l.sum := by
        intro x hx
        have ht := hall _ (List.mem_map.mpr ⟨x, hx, rfl⟩)
        have hp0 : (0 : ℝ) < ((x / l.sum : ℚ) : ℝ) := by
          exact_mod_cast div_pos (hpos x hx) hS
        have hlog0 : Real.logb 2 ((x / l.sum : ℚ) : ℝ) = 0 := by
          rcases mul_eq_zero.mp ht with h | h
          · exact absurd h (ne_of_gt hp0)
          · exact h
        have hone : ((x / l.sum : ℚ) : ℝ) = 1 := by
          rcases Real.logb_eq_zero.mp hlog0 with h | h | h | h | h | h
          · norm_num at h
          · norm_num at h
          · norm_num at h
          · exact absurd h (ne_of_gt hp0)
          · exact h
          · exfalso
            rw [h] at hp0
            norm_num at hp0
        have honeQ : x / l.sum = 1 := by exact_mod_cast hone
        exact (div_eq_one_iff_eq (ne_of_gt hS)).mp honeQ
      have hrep := List.eq_replicate_of_mem hxS
      have hsum2 : l.sum = (l.length : ℚ) * l.sum := by
        conv_lhs => rw [hrep]
        rw [List.sum_replicate, nsmul_eq_mul]
      have hfact : ((l.length : ℚ) - 1) * l.sum = 0 := by
        linear_combination -hsum2
      rcases mul_eq_zero.mp hfact with h | h
      · have hone : (l.length : ℚ) = 1 := by linarith
        exact_mod_cast hone
      · exact absurd h (ne_of_gt hS)
    · rintro (rfl | hlen)
      · exact absurd rfl hne
      · obtain ⟨x, rfl⟩ := List.length_eq_one.mp hlen
        intro t ht
        simp only [List.map_cons, List.map_nil, List.mem_singleton] at ht
        subst ht
        have hsx : ([x] : List ℚ).sum = x := by simp
        rw [hsx]
        have hxne : x ≠ 0 := ne_of_gt (hpos x (by simp))
        rw [div_self hxne]
        push_cast
        simp [Real.logb_one]

/-- C1 (amended): for every normalized vector the s-engine Shannon
entropy is nonnegative, and it is zero exactly when the positive filter
is empty or contains exactly one element (a vector of several equal
positive values has entropy `log2 n > 0`, so "one distinct value" is
replaced by "one element"). -/
theorem entropy_nonneg_and_zero_iff (v : List ℚ) :
    0 ≤ SEngine.shannonEntropy v
    ∧ (SEngine.shannonEntropy v = 0
        ↔ SEngine.posFilter v = [] ∨ (SEngine.posFilter v).length = 1) := by
  have h := entropy_core (SEngine.posFilter v) (posFilter_pos v)
  rw [shannonEntropy_eq]
  exact h

/-- C1 (counterexample): the vector `[8, 8, 8]` has exactly one
distinct positive value, yet its s-engine entropy is `log2 3`, not `0`:
the claim's "exactly one distinct value" criterion is false on the
code. -/
theorem entropy_distinct_value_counterexample :
    (SEngine.posFilter [8, 8, 8]).dedup.length = 1
    ∧ SEngine.shannonEntropy [8, 8, 8] ≠ 0 := by
  constructor
  · decide
  · have hlog : Real.logb 2 ((1 : ℝ)/3) < 0 :=
      Real.logb_neg one_lt_two (by norm_num) (by norm_num)
    have hpos : 0 < SEngine.shannonEntropy [8, 8, 8] := by
      rw [shannonEntropy_eq]
      have hf : SEngine.posFilter [8, 8, 8] = [8, 8, 8] := by decide
      rw [hf]
      simp only [List.map_cons, List.map_nil, List.sum_cons, List.sum_nil]
      push_cast
      norm_num
      nlinarith [hlog]
    exact ne_of_gt hpos

/-- C10 (amended): whenever the raw pairs normalize to a vector `v`,
the raw-input wrapper of `s_engine.py` returns exactly the report the
pre-normalized-input wrapper of `student_engine.py` computes on `v`:
the two engine stacks are textually identical after normalization. -/
theorem wrapper_variants_agree (pairs : List (RawVal × RawVal)) (v : List ℚ)
    (h : SEngine.normalizeAllScores pairs = .ok v) :
    SEngine.computeFromRaw pairs = .ok (StudentEngine.compute v) := by
  unfold SEngine.computeFromRaw
  rw [h]
  rfl

/-- C10 (witness): the raw input `scores=[8], max=[10]` normalizes to
`[8]` and the raw-input wrapper's report equals the pre-normalized
wrapper's report on `[8]`. -/
theorem wrapper_variants_agree_witness :
    SEngine.computeFromRaw [(RawVal.num 8, RawVal.num 10)]
      = .ok (StudentEngine.compute [8]) :=
  wrapper_variants_agree [(RawVal.num 8, RawVal.num 10)] [8]
    (by
      have h8 : SEngine.normalizeScore (RawVal.num 10) (RawVal.num 8)
          = .ok 8 := by
        norm_num [SEngine.normalizeScore]
      simp [SEngine.normalizeAllScores, h8, Bind.bind, Except.bind]
      rfl)

/-- C10 (counterexample): on the vector `[8]` the `main.py` entropy,
which never divides by the filtered sum, is `-8 * log2 8 = -24`, while
the dictionary entropy of the two wrappers is `0`: the `main.py`
variant does not agree with the reported entropy. -/
theorem mainpy_entropy_counterexample :
    MainPy.shannonEntropy [8] ≠ SEngine.shannonEntropy [8] := by
  have hs : SEngine.shannonEntropy [8] = 0 := by
    rw [shannonEntropy_eq]
    have hf : SEngine.posFilter [8] = [8] := by decide
    rw [hf]
    simp only [List.map_cons, List.map_nil, List.sum_cons, List.sum_nil]
    norm_num
  have hm : MainPy.shannonEntropy [8] < 0 := by
    have hme : MainPy.shannonEntropy [8]
        = -((((8 : ℚ) : ℝ) * Real.logb 2 (((8 : ℚ)) : ℝ)) + 0) := rfl
    rw [hme]
    have h8 : ((8 : ℚ) : ℝ) = 8 := by norm_num
    rw [h8]
    have hlog : 0 < Real.logb 2 (8 : ℝ) :=
      Real.logb_pos one_lt_two (by norm_num)
    nlinarith
  rw [hs]
  exact ne_of_lt hm
